import Mathlib

/-!
Verification of the text-generation-service post-processing pipeline.

Shallow embedding of `src/text_generation_service/main.py`. Text is modelled
as `List Char`. The Python string operations used by the service
(`str.strip`, `str.split("\n")`, `str.replace`, `str.split()`, `str.join`,
the `in` substring test) are embedded below with Python's semantics
(restricted to the ASCII whitespace characters, which is all the service's
strings use). The `/generate` handler `generate_text` is embedded with the
external Hugging Face pipeline abstracted as a function argument returning
a list of candidates, exactly as the code reads `outputs[0]["generated_text"]`.
-/

/-- Python's notion of (ASCII) whitespace used by `str.strip` and `str.split()`:
space, tab, newline, carriage return, vertical tab, form feed. -/
def pyIsSpace (c : Char) : Bool :=
  c = ' ' || c = '\t' || c = '\n' || c = '\r' || c = Char.ofNat 11 || c = Char.ofNat 12

/-- Python `str.strip()`: drop leading and trailing whitespace. -/
def pyStrip (t : List Char) : List Char :=
  ((t.dropWhile pyIsSpace).reverse.dropWhile pyIsSpace).reverse

/-- Python `s.split("\n")`: split on each newline character, keeping empty
pieces (so it never returns an empty list). -/
def splitNl : List Char → List (List Char)
  | [] => [[]]
  | c :: cs =>
    if c = '\n' then [] :: splitNl cs
    else
      match splitNl cs with
      | [] => [[c]]
      | l :: ls => (c :: l) :: ls

/-- Python `sep.join(xs)`. -/
def pyJoin (sep : List Char) : List (List Char) → List Char
  | [] => []
  | [w] => w
  | w :: ws => w ++ sep ++ pyJoin sep ws

/-- Python's substring test `p in t`. -/
def occursIn (p : List Char) : List Char → Bool
  | [] => p.isEmpty
  | c :: cs => p.isPrefixOf (c :: cs) || occursIn p cs

/-- One step of Python `t.replace(p, "")`, with explicit fuel (the fuel is
a structural-recursion device only: `pyReplace` supplies `t.length`, which
is enough because every step consumes at least one character). Python's
`replace` scans left to right; at each position, if the (nonempty) pattern
matches it is removed and scanning resumes after it, otherwise the current
character is kept. -/
def replaceGo (p : List Char) : Nat → List Char → List Char
  | _, [] => []
  | 0, t => t
  | fuel + 1, c :: cs =>
    if p ≠ [] ∧ p.isPrefixOf (c :: cs) then replaceGo p fuel ((c :: cs).drop p.length)
    else c :: replaceGo p fuel cs

/-- Python `t.replace(p, "")`: remove every non-overlapping occurrence of `p`
in a single left-to-right pass (for `p = ""` Python returns `t` unchanged,
as does this definition). -/
def pyReplace (p t : List Char) : List Char :=
  replaceGo p t.length t

/-- Accumulator worker for Python `str.split()` (split on whitespace runs,
dropping empty pieces). `acc` holds the current word, reversed. -/
def splitWsAux : List Char → List Char → List (List Char)
  | acc, [] => if acc.isEmpty then [] else [acc.reverse]
  | acc, c :: cs =>
    if pyIsSpace c then
      if acc.isEmpty then splitWsAux [] cs else acc.reverse :: splitWsAux [] cs
    else splitWsAux (c :: acc) cs

/-- Python `t.split()`: whitespace-delimited words, no empty words. -/
def pySplitWs (t : List Char) : List (List Char) :=
  splitWsAux [] t

/-- The line-deduplication loop of `generate_text` (main.py): `seen` is the
set of already-seen stripped lines, a line is kept iff its stripped form is
not in `seen`, and kept lines add their stripped form to `seen`. -/
def dedupAux (seen : List (List Char)) : List (List Char) → List (List Char)
  | [] => []
  | l :: ls =>
    if pyStrip l ∈ seen then dedupAux seen ls
    else l :: dedupAux (pyStrip l :: seen) ls

/-- The list `unique_lines` as computed by `generate_text`: the dedup loop started
with an empty `seen` set. -/
def dedupLines (ls : List (List Char)) : List (List Char) :=
  dedupAux [] ls

/-- Step 4a of `generate_text`: split on newlines, drop lines whose
stripped content was already seen, rejoin with newlines. -/
def dedupStep (t : List Char) : List Char :=
  pyJoin ['\n'] (dedupLines (splitNl t))

/-- Step 4b of `generate_text`: `if prompt in final_text:
final_text = final_text.replace(prompt, "").strip()`. -/
def stripStep (prompt t : List Char) : List Char :=
  if occursIn prompt t then pyStrip (pyReplace prompt t) else t

/-- Step 4c of `generate_text`: `words = final_text.split(); if len(words) >
200: final_text = " ".join(words[:200])`. -/
def clampStep (t : List Char) : List Char :=
  if 200 < (pySplitWs t).length then pyJoin [' '] ((pySplitWs t).take 200) else t

/-- The whole Output Normalizer (Step 4 of `generate_text`): dedup lines,
strip the prompt, clamp to 200 words. -/
def normalizeOutput (prompt rawText : List Char) : List Char :=
  clampStep (stripStep prompt (dedupStep rawText))

/-- The request model `GenerateRequest` (pydantic `BaseModel`), with the
source's field defaults. Python `int` is modelled as `Int` and `float` as
`ℚ`. -/
structure GenerateRequest where
  prompt : List Char
  max_new_tokens : Int := 200
  temperature : ℚ := 7 / 10
  top_p : ℚ := 9 / 10
  repetition_penalty : ℚ := 12 / 10
  no_repeat_ngram_size : Int := 2
deriving Repr, DecidableEq

/-- pydantic validation of the request body: every numeric field is optional
with the model's default, and no range validation is performed (the model
declares no validators), so any type-correct combination is accepted. -/
def parseRequest (prompt : List Char) (max_new_tokens : Option Int)
    (temperature top_p repetition_penalty : Option ℚ)
    (no_repeat_ngram_size : Option Int) : Except (List Char) GenerateRequest :=
  Except.ok
    { prompt := prompt
      max_new_tokens := max_new_tokens.getD 200
      temperature := temperature.getD (7 / 10)
      top_p := top_p.getD (9 / 10)
      repetition_penalty := repetition_penalty.getD (12 / 10)
      no_repeat_ngram_size := no_repeat_ngram_size.getD 2 }

/-- The decoding parameters `generate_text` passes to the pipeline call
(do_sample is hard-coded to `True`). -/
structure GenParams where
  max_new_tokens : Int
  do_sample : Bool
  temperature : ℚ
  top_p : ℚ
  repetition_penalty : ℚ
  no_repeat_ngram_size : Int
deriving Repr, DecidableEq

/-- One element of the pipeline's output list: a dict with key
`generated_text`. -/
structure Candidate where
  generated_text : List Char
deriving Repr, DecidableEq

/-- Outcome of one request to `POST /generate`. `clientError` carries the
HTTP status and detail of a raised `HTTPException`; `serverError` models an
uncaught exception (e.g. `outputs[0]` on an empty list). -/
inductive HandlerResult where
  | ok (generated_text : List Char)
  | clientError (status : Nat) (detail : List Char)
  | serverError
deriving Repr, DecidableEq

/-- The detail message of the empty-prompt `HTTPException`. -/
def emptyPromptMsg : List Char := ("Prompt cannot be empty.").toList

/-- The decoding arguments `generate_text` forwards verbatim to the pipeline
call (plus the hard-coded `do_sample=True`). -/
def reqParams (req : GenerateRequest) : GenParams :=
  { max_new_tokens := req.max_new_tokens
    do_sample := true
    temperature := req.temperature
    top_p := req.top_p
    repetition_penalty := req.repetition_penalty
    no_repeat_ngram_size := req.no_repeat_ngram_size }

/-- Extraction `generated_text = outputs[0]["generated_text"]` followed by Step 4 and
Step 5 of `generate_text`: indexing an empty output list raises (a server
error); otherwise only the first candidate is post-processed and returned. -/
def handleCandidates (prompt : List Char) : List Candidate → HandlerResult
  | [] => HandlerResult.serverError
  | o :: _ => HandlerResult.ok (normalizeOutput prompt o.generated_text)

/-- The `/generate` handler `generate_text` (main.py), with the external
text-generation pipeline abstracted as `gen`: it receives the final prompt
and the decoding parameters and returns the pipeline's candidate list. -/
def generate_text (gen : List Char → GenParams → List Candidate)
    (req : GenerateRequest) : HandlerResult :=
  let prompt := pyStrip req.prompt
  if prompt = [] then HandlerResult.clientError 400 emptyPromptMsg
  else
    let final_prompt := prompt
    let outputs := gen final_prompt (reqParams req)
    handleCandidates prompt outputs

/-- Spec-side restatement of the dedup contract (claim C3's wording): keep
the first occurrence of each distinct trimmed line, dropping every later
line whose trimmed content equals a kept line's trimmed content. Used only
to be compared with `dedupLines`, which is translated from the source. -/
def specDedup : List (List Char) → List (List Char)
  | [] => []
  | l :: ls => l :: specDedup (ls.filter (fun m => pyStrip m ≠ pyStrip l))
termination_by ls => ls.length
decreasing_by
  simp only [List.length_cons]
  exact Nat.lt_succ_of_le (List.length_filter_le _ _)

/-- A concrete 201-word text, used to exercise the word-count clamp. -/
def manyWords : List Char := pyJoin [' '] (List.replicate 201 ['a'])

example : pyStrip ("  ab ".toList) = ("ab".toList) := by decide

example : pyReplace ("hello".toList) ("hello world hello again".toList) =
    (" world  again".toList) := by decide

example : normalizeOutput ("X".toList) ("A\nB\nA\nC".toList) = ("A\nB\nC".toList) := by decide

example : pySplitWs (" a  bb\nc ".toList) = [['a'], ['b', 'b'], ['c']] := by decide

example : stripStep ("ab".toList) ("aabb".toList) = ("ab".toList) := by decide

/-- Splitting never returns the empty list. -/
theorem splitNl_ne_nil (t : List Char) : splitNl t ≠ [] := by
  cases t with
  | nil => simp [splitNl]
  | cons c cs =>
    simp only [splitNl]
    split
    · simp
    · split <;> simp

/-- Every piece produced by `splitNl` is free of newline characters. -/
theorem splitNl_no_nl (t : List Char) : ∀ l ∈ splitNl t, '\n' ∉ l := by
  induction t with
  | nil => intro l hl; simp [splitNl] at hl; simp [hl]
  | cons c cs ih =>
    intro l hl
    simp only [splitNl] at hl
    by_cases hc : c = '\n'
    · rw [if_pos hc] at hl
      rcases List.mem_cons.mp hl with h | h
      · simp [h]
      · exact ih l h
    · rw [if_neg hc] at hl
      cases hsplit : splitNl cs with
      | nil => exact absurd hsplit (splitNl_ne_nil cs)
      | cons l0 ls0 =>
        rw [hsplit] at hl
        rcases List.mem_cons.mp hl with h | h
        · subst h
          intro hmem
          rcases List.mem_cons.mp hmem with h | h
          · exact hc h.symm
          · exact ih l0 (hsplit ▸ List.mem_cons_self l0 ls0) h
        · exact ih l (hsplit ▸ List.mem_cons_of_mem l0 h)

/-- Splitting a newline-free piece yields just that piece. -/
theorem splitNl_of_no_nl (l : List Char) (h : '\n' ∉ l) : splitNl l = [l] := by
  induction l with
  | nil => rfl
  | cons c cs ih =>
    have hc : c ≠ '\n' := fun he => h (he ▸ List.mem_cons_self c cs)
    have hcs : '\n' ∉ cs := fun hm => h (List.mem_cons_of_mem c hm)
    simp only [splitNl, if_neg hc, ih hcs]

/-- Splitting a newline-free piece followed by a newline peels off the piece. -/
theorem splitNl_append (l rest : List Char) (h : '\n' ∉ l) :
    splitNl (l ++ '\n' :: rest) = l :: splitNl rest := by
  induction l with
  | nil => simp [splitNl]
  | cons c cs ih =>
    have hc : c ≠ '\n' := fun he => h (he ▸ List.mem_cons_self c cs)
    have hcs : '\n' ∉ cs := fun hm => h (List.mem_cons_of_mem c hm)
    simp only [List.cons_append, splitNl, if_neg hc]
    rw [List.append_eq, ih hcs]

/-- Function `splitNl` is a left inverse of joining newline-free pieces with "\n". -/
theorem splitNl_pyJoin (ls : List (List Char)) (hne : ls ≠ [])
    (h : ∀ l ∈ ls, '\n' ∉ l) : splitNl (pyJoin ['\n'] ls) = ls := by
  induction ls with
  | nil => exact absurd rfl hne
  | cons l ls ih =>
    cases ls with
    | nil => exact splitNl_of_no_nl l (h l (List.mem_cons_self l []))
    | cons l2 ls2 =>
      have hjoin : pyJoin ['\n'] (l :: l2 :: ls2) = l ++ '\n' :: pyJoin ['\n'] (l2 :: ls2) := by
        simp [pyJoin]
      rw [hjoin, splitNl_append l _ (h l (List.mem_cons_self l _))]
      rw [ih (by simp) (fun m hm => h m (List.mem_cons_of_mem l hm))]

/-- Lines kept by the dedup loop all come from the input. -/
theorem mem_of_mem_dedupAux (ls : List (List Char)) :
    ∀ seen l, l ∈ dedupAux seen ls → l ∈ ls := by
  induction ls with
  | nil => intro seen l hl; simp [dedupAux] at hl
  | cons l0 ls ih =>
    intro seen l hl
    simp only [dedupAux] at hl
    by_cases hs : pyStrip l0 ∈ seen
    · rw [if_pos hs] at hl
      exact List.mem_cons_of_mem l0 (ih seen l hl)
    · rw [if_neg hs] at hl
      rcases List.mem_cons.mp hl with h | h
      · exact h ▸ List.mem_cons_self l0 ls
      · exact List.mem_cons_of_mem l0 (ih _ l h)

/-- The stripped forms of the lines kept by the dedup loop are pairwise
distinct and disjoint from `seen`. -/
theorem dedupAux_strips_nodup (ls : List (List Char)) :
    ∀ seen, ((dedupAux seen ls).map pyStrip).Nodup ∧
      ∀ s ∈ seen, s ∉ (dedupAux seen ls).map pyStrip := by
  induction ls with
  | nil => intro seen; simp [dedupAux]
  | cons l ls ih =>
    intro seen
    by_cases hs : pyStrip l ∈ seen
    · simpa [dedupAux, hs] using ih seen
    · obtain ⟨hnodup, hdisj⟩ := ih (pyStrip l :: seen)
      refine ⟨?_, ?_⟩
      · simp only [dedupAux, if_neg hs, List.map_cons, List.nodup_cons]
        exact ⟨hdisj (pyStrip l) (List.mem_cons_self _ _), hnodup⟩
      · intro s hsseen
        simp only [dedupAux, if_neg hs, List.map_cons, List.mem_cons, not_or]
        exact ⟨fun he => hs (he ▸ hsseen), hdisj s (List.mem_cons_of_mem _ hsseen)⟩

/-- When the stripped lines are already pairwise distinct and disjoint from
`seen`, the dedup loop keeps everything. -/
theorem dedupAux_of_nodup (ls : List (List Char)) :
    ∀ seen, ((ls.map pyStrip).Nodup) → (∀ l ∈ ls, pyStrip l ∉ seen) →
      dedupAux seen ls = ls := by
  induction ls with
  | nil => intro seen _ _; rfl
  | cons l ls ih =>
    intro seen hnodup hdisj
    have hs : pyStrip l ∉ seen := hdisj l (List.mem_cons_self l ls)
    simp only [List.map_cons, List.nodup_cons] at hnodup
    rw [dedupAux, if_neg hs, ih (pyStrip l :: seen) hnodup.2]
    intro m hm
    simp only [List.mem_cons, not_or]
    constructor
    · intro he
      exact hnodup.1 (he ▸ List.mem_map_of_mem pyStrip hm)
    · exact hdisj m (List.mem_cons_of_mem l hm)

/-- The dedup loop is idempotent on line lists. -/
theorem dedupLines_idem (ls : List (List Char)) :
    dedupLines (dedupLines ls) = dedupLines ls :=
  dedupAux_of_nodup (dedupLines ls) [] (dedupAux_strips_nodup ls []).1 (by simp)

/-- Dedup of a nonempty line list is nonempty (the first line is always kept). -/
theorem dedupLines_ne_nil (ls : List (List Char)) (h : ls ≠ []) :
    dedupLines ls ≠ [] := by
  cases ls with
  | nil => exact absurd rfl h
  | cons l ls => simp [dedupLines, dedupAux]

/-- C1: if the trimmed prompt occurs as a literal substring of the
deduplicated, rejoined text, the strip step removes every (left-to-right,
non-overlapping) literal occurrence of that exact substring — i.e. it is
Python's replace-all — and trims the result; in particular both occurrences
of "hello" in "hello world hello again" are removed, leaving
" world  again" before the final trim. -/
theorem claim_C1 (p t : List Char) (h : occursIn p t = true) :
    stripStep p t = pyStrip (pyReplace p t) ∧
    pyReplace ("hello".toList) ("hello world hello again".toList) =
      (" world  again".toList) :=
  ⟨by simp [stripStep, h], by decide⟩

/-- Witness for C1 at prompt "hello", text "hello world hello again". -/
theorem claim_C1_witness :
    occursIn ("hello".toList) ("hello world hello again".toList) = true ∧
    stripStep ("hello".toList) ("hello world hello again".toList) =
      pyStrip (pyReplace ("hello".toList) ("hello world hello again".toList)) :=
  ⟨by decide, (claim_C1 ("hello".toList) ("hello world hello again".toList) (by decide)).1⟩

/-- C2: a request whose prompt strips to the empty string is answered with
HTTP 400 "Prompt cannot be empty.", and the result does not depend on the
generation capability (it is never invoked): any two capabilities give the
same outcome. -/
theorem claim_C2 (gen gen2 : List Char → GenParams → List Candidate)
    (req : GenerateRequest) (h : pyStrip req.prompt = []) :
    generate_text gen req = HandlerResult.clientError 400 emptyPromptMsg ∧
    generate_text gen req = generate_text gen2 req := by
  constructor <;> simp [generate_text, h]

/-- Witness for C2 at the whitespace-only prompt "  ". -/
theorem claim_C2_witness :
    pyStrip ("  ".toList) = [] ∧
    generate_text (fun _ _ => []) { prompt := ("  ".toList) } =
      HandlerResult.clientError 400 emptyPromptMsg :=
  ⟨by decide,
    (claim_C2 (fun _ _ => []) (fun _ _ => [⟨[]⟩]) { prompt := ("  ".toList) } (by decide)).1⟩

/-- C6: the normalizer's final output may legitimately be empty: when the
generated text equals the trimmed prompt, the full pipeline returns the
empty string and the handler still succeeds with that empty generated_text. -/
theorem claim_C6 :
    ∃ (gen : List Char → GenParams → List Candidate) (req : GenerateRequest),
      pyStrip req.prompt ≠ [] ∧
      (∀ ps, gen (pyStrip req.prompt) ps = [⟨pyStrip req.prompt⟩]) ∧
      generate_text gen req = HandlerResult.ok [] := by
  exact ⟨fun p _ => [⟨p⟩], { prompt := ("hello".toList) }, by decide, fun ps => rfl, by decide⟩

/-- C7: only the first candidate determines the response: two generation
capabilities whose candidate lists agree on their first element (if any)
produce identical handler results for every request. -/
theorem claim_C7 (gen1 gen2 : List Char → GenParams → List Candidate)
    (h : ∀ p ps, (gen1 p ps).head? = (gen2 p ps).head?)
    (req : GenerateRequest) :
    generate_text gen1 req = generate_text gen2 req := by
  by_cases hp : pyStrip req.prompt = []
  · simp [generate_text, hp]
  · have hh := h (pyStrip req.prompt) (reqParams req)
    simp only [generate_text, hp, if_neg]
    rcases h1 : gen1 (pyStrip req.prompt) (reqParams req) with _ | ⟨o1, os1⟩ <;>
      rcases h2 : gen2 (pyStrip req.prompt) (reqParams req) with _ | ⟨o2, os2⟩ <;>
      rw [h1, h2] at hh <;> simp_all [handleCandidates]

/-- Witness for C7: capabilities returning [A, B] and [A] give the same
result on the prompt "X". -/
theorem claim_C7_witness :
    generate_text (fun _ _ => [⟨("A".toList)⟩, ⟨("B".toList)⟩]) { prompt := ("X".toList) } =
      generate_text (fun _ _ => [⟨("A".toList)⟩]) { prompt := ("X".toList) } :=
  claim_C7 (fun _ _ => [⟨("A".toList)⟩, ⟨("B".toList)⟩]) (fun _ _ => [⟨("A".toList)⟩])
    (fun _ _ => rfl) { prompt := ("X".toList) }

/-- C8: omitted numeric fields get the documented defaults (200, 0.7, 0.9,
1.2, 2), and validation performs no range check beyond the type: every
type-correct combination (including a negative temperature) is accepted. -/
theorem claim_C8 (p p2 : List Char) (m : Int) (t tp rp : ℚ) (n : Int) :
    parseRequest p none none none none none =
      Except.ok { prompt := p, max_new_tokens := 200, temperature := 7 / 10,
                  top_p := 9 / 10, repetition_penalty := 12 / 10,
                  no_repeat_ngram_size := 2 } ∧
    (parseRequest p2 (some m) (some t) (some tp) (some rp) (some n)).isOk = true :=
  ⟨rfl, rfl⟩

/-- C9: the prompt-strip step is a single left-to-right pass and is not
idempotent: for prompt "ab" and text "aabb" the stripped text is "ab",
which still contains the prompt, and stripping again changes it. -/
theorem claim_C9 :
    occursIn ("ab".toList) (stripStep ("ab".toList) ("aabb".toList)) = true ∧
    stripStep ("ab".toList) (stripStep ("ab".toList) ("aabb".toList)) ≠
      stripStep ("ab".toList) ("aabb".toList) := by decide

/-- C10: when the deduplicated text does not contain the trimmed prompt and
has at most 200 words, the strip and clamp steps change nothing and the
handler returns the deduplicated text byte for byte. -/
theorem claim_C10 (gen : List Char → GenParams → List Candidate)
    (req : GenerateRequest) (o : Candidate) (os : List Candidate)
    (hne : pyStrip req.prompt ≠ [])
    (hgen : gen (pyStrip req.prompt) (reqParams req) = o :: os)
    (hocc : occursIn (pyStrip req.prompt) (dedupStep o.generated_text) = false)
    (hlen : (pySplitWs (dedupStep o.generated_text)).length ≤ 200) :
    generate_text gen req = HandlerResult.ok (dedupStep o.generated_text) := by
  simp [generate_text, hne, hgen, handleCandidates, normalizeOutput, stripStep, hocc,
    clampStep, Nat.not_lt.mpr hlen]

/-- Witness for C10 at prompt "x" and generated text " A \nB" (leading and
trailing spaces and the internal newline are preserved). -/
theorem claim_C10_witness :
    pyStrip ("x".toList) ≠ [] ∧
    occursIn (pyStrip ("x".toList)) (dedupStep (" A \nB".toList)) = false ∧
    (pySplitWs (dedupStep (" A \nB".toList))).length ≤ 200 ∧
    generate_text (fun _ _ => [⟨(" A \nB".toList)⟩]) { prompt := ("x".toList) } =
      HandlerResult.ok (dedupStep (" A \nB".toList)) :=
  ⟨by decide, by decide, by decide,
    claim_C10 (fun _ _ => [⟨(" A \nB".toList)⟩]) { prompt := ("x".toList) }
      ⟨(" A \nB".toList)⟩ [] (by decide) rfl (by decide) (by decide)⟩

/-- C5: the line-deduplication step is idempotent: dedup applied to its own
output is the identity. -/
theorem claim_C5 (t : List Char) : dedupStep (dedupStep t) = dedupStep t := by
  have h1 : splitNl (dedupStep t) = dedupLines (splitNl t) := by
    unfold dedupStep
    exact splitNl_pyJoin _ (dedupLines_ne_nil _ (splitNl_ne_nil t))
      (fun l hl => splitNl_no_nl t l (mem_of_mem_dedupAux _ [] l hl))
  show pyJoin ['\n'] (dedupLines (splitNl (dedupStep t))) = dedupStep t
  rw [h1, dedupLines_idem]
  rfl

/-- Unfolding lemma: the spec-side dedup of the empty line list. -/
theorem specDedup_nil : specDedup [] = [] := by
  rw [specDedup.eq_def]

/-- Unfolding lemma: the spec-side dedup keeps the head and drops every later
line with the same trimmed content. -/
theorem specDedup_cons (l : List Char) (ls : List (List Char)) :
    specDedup (l :: ls) = l :: specDedup (ls.filter (fun m => pyStrip m ≠ pyStrip l)) := by
  rw [specDedup.eq_def]

/-- The source's dedup loop computes the spec's keep-first-occurrence
filter. -/
theorem dedupAux_eq_specDedup (ls : List (List Char)) :
    ∀ seen, dedupAux seen ls =
      specDedup (ls.filter (fun l => !decide (pyStrip l ∈ seen))) := by
  induction ls with
  | nil => intro seen; rw [List.filter_nil, specDedup_nil]; rfl
  | cons l ls ih =>
    intro seen
    by_cases hs : pyStrip l ∈ seen
    · have hf : List.filter (fun l => !decide (pyStrip l ∈ seen)) (l :: ls) =
          List.filter (fun l => !decide (pyStrip l ∈ seen)) ls := by
        simp [List.filter_cons, hs]
      rw [hf, dedupAux, if_pos hs, ih seen]
    · have hf : List.filter (fun l => !decide (pyStrip l ∈ seen)) (l :: ls) =
          l :: List.filter (fun l => !decide (pyStrip l ∈ seen)) ls := by
        simp [List.filter_cons, hs]
      have hfa : ls.filter (fun m => !decide (pyStrip m ∈ pyStrip l :: seen)) =
          (ls.filter (fun m => !decide (pyStrip m ∈ seen))).filter
            (fun m => pyStrip m ≠ pyStrip l) := by
        rw [List.filter_filter]
        apply List.filter_congr
        intro m _
        by_cases h1 : pyStrip m = pyStrip l <;> by_cases h2 : pyStrip m ∈ seen <;>
          simp [h1, h2]
      rw [hf, specDedup_cons, dedupAux, if_neg hs, ih (pyStrip l :: seen), hfa]

/-- C3: the line-deduplication step splits on newline boundaries and keeps
exactly the first occurrence of each distinct trimmed line, in order and
with the original non-trimmed content, dropping later duplicates (the
spec-side `specDedup`); in particular "A\nB\nA\nC" with prompt "X"
normalizes to "A\nB\nC". -/
theorem claim_C3 (t : List Char) :
    dedupStep t = pyJoin ['\n'] (specDedup (splitNl t)) ∧
    normalizeOutput ("X".toList) ("A\nB\nA\nC".toList) = ("A\nB\nC".toList) := by
  constructor
  · unfold dedupStep dedupLines
    rw [dedupAux_eq_specDedup]
    simp
  · decide

/-- Feeding a whitespace-free chunk into the split loop accumulates it onto
the current word. -/
theorem splitWsAux_chunk (w : List Char) :
    ∀ (acc rest : List Char), (∀ c ∈ w, pyIsSpace c = false) →
      splitWsAux acc (w ++ rest) = splitWsAux (w.reverse ++ acc) rest := by
  induction w with
  | nil => intro acc rest _; rfl
  | cons c w ih =>
    intro acc rest h
    have hc : pyIsSpace c = false := h c (List.mem_cons_self c w)
    show splitWsAux acc (c :: (w ++ rest)) = _
    simp only [splitWsAux, hc, Bool.false_eq_true, if_false]
    rw [ih (c :: acc) rest (fun d hd => h d (List.mem_cons_of_mem c hd))]
    simp

/-- A space after a nonempty accumulated word emits that word. -/
theorem splitWsAux_space (acc rest : List Char) (h : acc ≠ []) :
    splitWsAux acc (' ' :: rest) = acc.reverse :: splitWsAux [] rest := by
  have he : acc.isEmpty = false := by simpa [List.isEmpty_iff] using h
  simp [splitWsAux, pyIsSpace, he]

/-- Function `pySplitWs` is a left inverse of joining nonempty whitespace-free words
with single spaces. -/
theorem pySplitWs_pyJoin (ws : List (List Char)) :
    (∀ w ∈ ws, w ≠ [] ∧ ∀ c ∈ w, pyIsSpace c = false) →
      pySplitWs (pyJoin [' '] ws) = ws := by
  induction ws with
  | nil => intro _; rfl
  | cons w ws ih =>
    intro h
    obtain ⟨hne, hw⟩ := h w (List.mem_cons_self w ws)
    cases ws with
    | nil =>
      show splitWsAux [] (pyJoin [' '] [w]) = [w]
      have : pyJoin [' '] [w] = w ++ [] := by simp [pyJoin]
      rw [this, splitWsAux_chunk w [] [] hw]
      have he : (w.reverse ++ []).isEmpty = false := by
        simpa [List.isEmpty_iff] using hne
      simp [splitWsAux, he, hne]
    | cons w2 ws2 =>
      have hjoin : pyJoin [' '] (w :: w2 :: ws2) =
          w ++ ' ' :: pyJoin [' '] (w2 :: ws2) := by simp [pyJoin]
      show splitWsAux [] (pyJoin [' '] (w :: w2 :: ws2)) = w :: w2 :: ws2
      rw [hjoin, splitWsAux_chunk w _ _ hw, List.append_nil,
        splitWsAux_space w.reverse _ (by simpa using hne), List.reverse_reverse]
      have hrest := ih (fun m hm => h m (List.mem_cons_of_mem w hm))
      unfold pySplitWs at hrest
      rw [hrest]

/-- Every word produced by the split loop is nonempty and whitespace-free. -/
theorem splitWsAux_wf (t : List Char) :
    ∀ acc, (∀ c ∈ acc, pyIsSpace c = false) →
      ∀ w ∈ splitWsAux acc t, w ≠ [] ∧ ∀ c ∈ w, pyIsSpace c = false := by
  induction t with
  | nil =>
    intro acc hacc w hw
    by_cases he : acc.isEmpty
    · simp [splitWsAux, he] at hw
    · simp only [splitWsAux, he, Bool.false_eq_true, if_false, List.mem_singleton] at hw
      subst hw
      refine ⟨fun hwnil => ?_, fun c hc => hacc c (List.mem_reverse.mp hc)⟩
      rw [List.isEmpty_iff] at he
      exact he (by simpa using congrArg List.reverse hwnil)
  | cons c cs ih =>
    intro acc hacc w hw
    by_cases hc : pyIsSpace c
    · by_cases he : acc.isEmpty
      · simp only [splitWsAux, hc, if_true, he] at hw
        exact ih [] (by simp) w hw
      · simp only [splitWsAux, hc, if_true, he, Bool.false_eq_true, if_false,
          List.mem_cons] at hw
        rcases hw with hw | hw
        · subst hw
          refine ⟨fun hwnil => ?_, fun d hd => hacc d (List.mem_reverse.mp hd)⟩
          rw [List.isEmpty_iff] at he
          exact he (by simpa using congrArg List.reverse hwnil)
        · exact ih [] (by simp) w hw
    · simp only [splitWsAux, hc, if_false] at hw
      have hcf : pyIsSpace c = false := by
        exact Bool.not_eq_true _ ▸ (by simpa using hc)
      refine ih (c :: acc) ?_ w hw
      intro d hd
      rcases List.mem_cons.mp hd with h1 | h1
      · exact h1 ▸ hcf
      · exact hacc d h1

/-- C4: the word-count clamp: a text with more than 200 whitespace-delimited
words becomes exactly its first 200 words rejoined with single spaces (and
so has exactly 200 words); a text with at most 200 words keeps its word
count unchanged. -/
theorem claim_C4 (t : List Char) :
    (200 < (pySplitWs t).length →
      clampStep t = pyJoin [' '] ((pySplitWs t).take 200) ∧
      (pySplitWs (clampStep t)).length = 200) ∧
    ((pySplitWs t).length ≤ 200 → pySplitWs (clampStep t) = pySplitWs t) := by
  constructor
  · intro h
    have hc : clampStep t = pyJoin [' '] ((pySplitWs t).take 200) := by
      simp [clampStep, h]
    refine ⟨hc, ?_⟩
    rw [hc, pySplitWs_pyJoin ((pySplitWs t).take 200)
      (fun w hw => splitWsAux_wf t [] (by simp) w (List.mem_of_mem_take hw))]
    rw [List.length_take]
    omega
  · intro h
    simp [clampStep, Nat.not_lt.mpr h]

set_option maxRecDepth 4000 in
/-- Witness for C4: a 201-word text clamps to exactly 200 words, and a
one-word text keeps its word count. -/
theorem claim_C4_witness :
    (200 < (pySplitWs manyWords).length ∧
      (pySplitWs (clampStep manyWords)).length = 200) ∧
    ((pySplitWs ['a']).length ≤ 200 ∧ pySplitWs (clampStep ['a']) = pySplitWs ['a']) :=
  ⟨⟨by decide, ((claim_C4 manyWords).1 (by decide)).2⟩,
   ⟨by decide, (claim_C4 ['a']).2 (by decide)⟩⟩
